import Mathlib

/-!
Verification of the extraction-to-validated-dataset pipeline of the
financial-ai-assistant-dashboard repository.

The definitions below are a shallow embedding of `src/extraction/pipeline.py`
(class `LLMExtractionPipeline`) and of `app.py` (`validate_data_structure`).
Python strings are modelled as Lean `String`; Python lists as `List`;
Python dictionaries with the fixed keys used by the pipeline become
structures; code that can raise returns `Option` or `Except`.  The
filesystem and the network are abstracted away: a PDF document is a path
plus the list of its per-page extracted texts, and the LLM client is an
oracle `String -> String`; what the embedding tracks is the list of
request payloads that the code would send.
-/

/-- Model of the Python test `pat in s` restricted to prefix position:
`leadsWith pat s` is true when `pat` is an initial segment of `s`. -/
def leadsWith : List Char → List Char → Bool
  | [], _ => true
  | _ :: _, [] => false
  | a :: as, b :: bs => a == b && leadsWith as bs

/-- Model of the Python containment test `pat in s` on char lists:
true when `pat` occurs as a contiguous substring of `s` (the empty
pattern is contained in every string, as in Python). -/
def strContainsL : List Char → List Char → Bool
  | [], pat => pat.isEmpty
  | s@(_ :: t), pat => leadsWith pat s || strContainsL t pat

/-- Python `pat in hay` on `String`. -/
def strContains (hay pat : String) : Bool :=
  strContainsL hay.data pat.data

/-- Fuel-driven worker for `pyReplaceL`; the fuel only serves structural
termination and is always called with more fuel than the input length. -/
def pyReplaceGo : Nat → List Char → List Char → List Char → List Char
  | 0, s, _, _ => s
  | _ + 1, [], _, _ => []
  | fuel + 1, c :: cs, pat, rep =>
    if pat ≠ [] ∧ leadsWith pat (c :: cs) = true then
      rep ++ pyReplaceGo fuel ((c :: cs).drop pat.length) pat rep
    else
      c :: pyReplaceGo fuel cs pat rep

/-- Model of Python `s.replace(pat, rep)`: replace every occurrence of
`pat` left to right, non-overlapping.  (Never called with an empty
pattern in this code base.) -/
def pyReplaceL (s pat rep : List Char) : List Char :=
  pyReplaceGo (s.length + 1) s pat rep

/-- Python `str.replace` lifted to `String`. -/
def pyReplace (s pat rep : String) : String :=
  ⟨pyReplaceL s.data pat.data rep.data⟩

/-- Model of Python `s.find(pat)` returning the first index at which
`pat` occurs, or `none` where Python returns `-1`. -/
def findIdxGo (pat : List Char) : List Char → Nat → Option Nat
  | [], i => if leadsWith pat [] then some i else none
  | c :: t, i => if leadsWith pat (c :: t) then some i else findIdxGo pat t (i + 1)

/-- Model of `financial_file[financial_file.find(simbol)+5:]` from
`extract_pl_pages` (pipeline.py line 60).  When `find` fails Python
returns `-1` and the slice becomes `[4:]`. -/
def trimFileName (path simbol : String) : String :=
  match findIdxGo simbol.data path.data 0 with
  | some i => ⟨path.data.drop (i + 5)⟩
  | none => ⟨path.data.drop 4⟩

/-- One raw PDF document: its filesystem path and the text that
`pdfplumber` extracts from each page, in page order. -/
structure Document where
  path : String
  pages : List String
deriving DecidableEq, Repr

/-- The `target` dictionary built by `extract_pl_pages`
(pipeline.py lines 41-45): four independent lists. -/
structure Batch where
  index : List Nat
  simbol : List String
  file_name : List String
  target_page : List String
deriving DecidableEq, Repr

/-- The `map_page_simbol` dictionary (pipeline.py lines 47-50);
`.get` on an unknown key returns `None`, modelled by `none`. -/
def map_page_simbol (simbol : String) : Option String :=
  if simbol = "REXP" then some "Consolidated Income Statements"
  else if simbol = "DIPD" then some "STATEMENT OF PROFIT OR LOSS"
  else none

/-- Inner page loop of `extract_pl_pages` (pipeline.py lines 56-61): for
each page whose extracted text contains the marker, append the symbol,
the trimmed file name and the page text to the three per-page lists. -/
def scanPages (marker simbol fname : String) (pages : List String) (b : Batch) : Batch :=
  match pages with
  | [] => b
  | p :: ps =>
    if strContains p marker then
      scanPages marker simbol fname ps
        { b with
          simbol := b.simbol ++ [simbol]
          file_name := b.file_name ++ [fname]
          target_page := b.target_page ++ [p] }
    else
      scanPages marker simbol fname ps b

/-- Outer file loop of `extract_pl_pages` (pipeline.py lines 52-63):
after scanning the pages of each file, one entry is appended to
the index list of `target` and the counter is incremented, regardless of how
many pages of that file matched. -/
def extractFiles (marker simbol : String) : List Document → Nat → Batch → Batch
  | [], _, b => b
  | f :: fs, idx, b =>
    let b1 := scanPages marker simbol (trimFileName f.path simbol) f.pages b
    extractFiles marker simbol fs (idx + 1) { b1 with index := b1.index ++ [idx] }

/-- Model of `LLMExtractionPipeline.extract_pl_pages` (pipeline.py lines 37-64)
over an abstract directory listing `files` for the given symbol.  For a
symbol outside the `map_page_simbol` mapping the real code raises
(either `list_all_files` fails on the missing directory or
`None in page.extract_text()` raises `TypeError`), modelled by `none`. -/
def extract_pl_pages (simbol : String) (files : List Document) : Option Batch :=
  (map_page_simbol simbol).map fun marker =>
    extractFiles marker simbol files 0 ⟨[], [], [], []⟩

/-- All pages of `files` whose text contains `marker`, in
document-then-page order: the reference value of the target_page list. -/
def matchedPages (marker : String) : List Document → List String
  | [] => []
  | f :: fs => f.pages.filter (fun p => strContains p marker) ++ matchedPages marker fs

/-- Reference value of the file_name list of `target`: the trimmed file name of
each document, once per matched page of that document. -/
def matchedFileNames (marker simbol : String) : List Document → List String
  | [] => []
  | f :: fs =>
    List.replicate (f.pages.filter (fun p => strContains p marker)).length
      (trimFileName f.path simbol) ++ matchedFileNames marker simbol fs

/-- One line of the user-turn payload built by `llm_data_extraction`
(pipeline.py lines 80-82): a newline, 20 spaces of f-string indentation,
then the quoted key/value pair followed by a comma. -/
def msgEntry (key val : String) : String :=
  "\n                    \"" ++ key ++ "\":\"" ++ val ++ "\","

/-- Payload of the i-th request of `llm_data_extraction`
(pipeline.py lines 78-83).  The loop indexes all four lists of the
batch at position `i` (`value[index]`); Python raises `IndexError`
when a list is too short, modelled by `none`.  Iteration order of
`pages.items()` is the insertion order of the `target` dictionary:
index, simbol, file_name, target_page. -/
def buildMessage (b : Batch) (i : Nat) : Option String :=
  match b.index[i]?, b.simbol[i]?, b.file_name[i]?, b.target_page[i]? with
  | some idx, some s, some f, some p =>
    some ("\x7b\n" ++ msgEntry "index" (toString idx) ++ msgEntry "simbol" s
      ++ msgEntry "file_name" f ++ msgEntry "target_page" p ++ "\n\x7d")
  | _, _, _, _ => none

/-- Sequential request loop of `llm_data_extraction` over the positions
0 up to the length of the index list minus one (pipeline.py line 77).  Each list
element is one `client.messages.create` payload; an `IndexError` while
building a payload aborts the loop, modelled by `none`. -/
def llmRequestsGo (b : Batch) : List Nat → Option (List String)
  | [] => some []
  | i :: is =>
    match buildMessage b i with
    | none => none
    | some m =>
      match llmRequestsGo b is with
      | none => none
      | some ms => some (m :: ms)

/-- The list of request payloads that `llm_data_extraction`
(pipeline.py lines 66-93) sends for a batch: one loop iteration per
entry of the index list of `pages`. -/
def llmRequests (b : Batch) : Option (List String) :=
  llmRequestsGo b (List.range b.index.length)

/-- Model of `LLMExtractionPipeline.llm_data_extraction` with the Anthropic
client abstracted to an oracle from request payload to response text
(the first content block of the reply). -/
def llm_data_extraction (llm : String → String) (b : Batch) : Option (List String) :=
  (llmRequests b).map (List.map llm)

/-- A parsed scalar value: the JSON objects the system prompt requires
have string values for Simbol/file_name and integer values for the six
monetary fields. -/
inductive PyScalar where
  | pstr (s : String)
  | pint (n : Int)
deriving DecidableEq, Repr

/-- A parsed record: an association list from keys to scalar values,
in source order. -/
abbrev PyDict := List (String × PyScalar)

/-- Skip ASCII whitespace, as `ast.literal_eval` does around tokens. -/
def skipWs : List Char → List Char
  | [] => []
  | c :: r => if c = ' ' ∨ c = '\n' ∨ c = '\t' ∨ c = '\r' then skipWs r else c :: r

/-- Consume characters up to the closing double quote of a string
literal; fails if the quote never closes. -/
def takeUntilQuote : List Char → Option (List Char × List Char)
  | [] => none
  | c :: r =>
    if c = '"' then some ([], r)
    else (takeUntilQuote r).map fun (s, rest) => (c :: s, rest)

/-- Longest digit prefix and the remaining characters. -/
def takeDigits : List Char → List Char × List Char
  | [] => ([], [])
  | c :: r =>
    if c.isDigit then
      let (ds, rest) := takeDigits r
      (c :: ds, rest)
    else ([], c :: r)

/-- Numeric value of a digit string. -/
def digitsToNat (ds : List Char) : Nat :=
  ds.foldl (fun a c => 10 * a + (c.toNat - 48)) 0

/-- Parse one scalar literal: a double-quoted string (no escape
sequences, which the responses of this pipeline do not use) or a
possibly negated integer. -/
def parseScalar : List Char → Option (PyScalar × List Char)
  | [] => none
  | c :: r =>
    if c = '"' then
      (takeUntilQuote r).map fun (cs, rest) => (PyScalar.pstr ⟨cs⟩, rest)
    else if c = '-' then
      let (ds, rest) := takeDigits r
      if ds = [] then none else some (PyScalar.pint (-(digitsToNat ds : Int)), rest)
    else if c.isDigit then
      let (ds, rest) := takeDigits (c :: r)
      some (PyScalar.pint (digitsToNat ds), rest)
    else none

/-- Entry loop of the dict parser, after the opening brace: either the
closing brace, or a quoted key, a colon, a scalar value and then a
comma (a trailing comma before the closing brace is legal, as it is for
`ast.literal_eval`) or the closing brace.  The fuel only serves
structural termination and always exceeds the input length. -/
def parseEntriesGo : Nat → List Char → Option (PyDict × List Char)
  | 0, _ => none
  | fuel + 1, s =>
    match skipWs s with
    | '\x7d' :: r => some ([], r)
    | '"' :: r =>
      match takeUntilQuote r with
      | none => none
      | some (k, r1) =>
        match skipWs r1 with
        | ':' :: r2 =>
          match parseScalar (skipWs r2) with
          | none => none
          | some (v, r3) =>
            match skipWs r3 with
            | ',' :: r4 =>
              match parseEntriesGo fuel r4 with
              | none => none
              | some (es, rest) => some ((⟨k⟩, v) :: es, rest)
            | '\x7d' :: r4 => some ([(⟨k⟩, v)], r4)
            | _ => none
        | _ => none
    | _ => none

/-- Model of `ast.literal_eval` (pipeline.py line 103) restricted to the
literal shape this pipeline exchanges with the LLM: one object literal
with double-quoted keys and string or integer values, surrounded by
optional whitespace.  Any other input raises, modelled by `none`. -/
def literal_eval (s : String) : Option PyDict :=
  match skipWs s.data with
  | '\x7b' :: r =>
    match parseEntriesGo (r.length + 1) r with
    | some (es, rest) => if skipWs rest = [] then some es else none
    | none => none
  | _ => none

/-- The fence-stripping step of `parse_llm_extraction_response`
(pipeline.py line 101): data.replace removes every occurrence of the
triple-backtick and json substrings anywhere in the text. -/
def stripFences (s : String) : String :=
  pyReplace (pyReplace s "```" "") "json" ""

/-- Model of `LLMExtractionPipeline.parse_llm_extraction_response`
(pipeline.py lines 95-107): strip fences from each response and parse
it; on the first parse failure the offending stripped text is printed
and the exception re-raised, aborting the whole run, modelled by
`Except.error` carrying that stripped text. -/
def parse_llm_extraction_response (responses : List String) : Except String (List PyDict) :=
  match responses with
  | [] => .ok []
  | r :: rs =>
    let parsed := stripFences r
    match literal_eval parsed with
    | none => .error parsed
    | some v =>
      match parse_llm_extraction_response rs with
      | .error e => .error e
      | .ok vs => .ok (v :: vs)

/-- First result of an option-valued function over a list, in list
order: the backtracking search of the Python regex engine over the
alternatives of a directive. -/
def firstSome : List α → (α → Option β) → Option β
  | [], _ => none
  | a :: as, f =>
    match f a with
    | some b => some b
    | none => firstSome as f

/-- Numeric value of a digit character. -/
def digitVal (c : Char) : Nat := c.toNat - 48

/-- Candidate parses of the `%d` directive of `datetime.strptime`, in
the alternation order of the CPython `_strptime` regex
`3[01] | [12]\d | 0[1-9] | [1-9]`: each candidate is the day value and
the unconsumed characters. -/
def dayCands : List Char → List (Nat × List Char)
  | [] => []
  | [a] => if a.isDigit ∧ a ≠ '0' then [(digitVal a, [])] else []
  | a :: b :: r =>
    (if a = '3' ∧ (b = '0' ∨ b = '1') then [(30 + digitVal b, r)] else []) ++
    (if (a = '1' ∨ a = '2') ∧ b.isDigit then [(10 * digitVal a + digitVal b, r)] else []) ++
    (if a = '0' ∧ b.isDigit ∧ b ≠ '0' then [(digitVal b, r)] else []) ++
    (if a.isDigit ∧ a ≠ '0' then [(digitVal a, b :: r)] else [])

/-- Candidate parses of the `%m` directive, alternation order
`1[0-2] | 0[1-9] | [1-9]`. -/
def monthCands : List Char → List (Nat × List Char)
  | [] => []
  | [a] => if a.isDigit ∧ a ≠ '0' then [(digitVal a, [])] else []
  | a :: b :: r =>
    (if a = '1' ∧ (b = '0' ∨ b = '1' ∨ b = '2') then [(10 + digitVal b, r)] else []) ++
    (if a = '0' ∧ b.isDigit ∧ b ≠ '0' then [(digitVal b, r)] else []) ++
    (if a.isDigit ∧ a ≠ '0' then [(digitVal a, b :: r)] else [])

/-- The `%Y` directive: exactly four digits. -/
def yearParse : List Char → Option (Nat × List Char)
  | a :: b :: c :: d :: r =>
    if a.isDigit ∧ b.isDigit ∧ c.isDigit ∧ d.isDigit then
      some (1000 * digitVal a + 100 * digitVal b + 10 * digitVal c + digitVal d, r)
    else none
  | _ => none

/-- First match of the `%d%m%Y` regex against a prefix of `s`, in the
backtracking order of the Python regex engine: day value, month value,
year value and the unconsumed suffix. -/
def regexDMY (s : List Char) : Option (Nat × Nat × Nat × List Char) :=
  firstSome (dayCands s) fun dr =>
    firstSome (monthCands dr.2) fun mr =>
      (yearParse mr.2).map fun yr => (dr.1, mr.1, yr.1, yr.2)

/-- Proleptic Gregorian leap-year rule used by `datetime`. -/
def isLeap (y : Nat) : Bool :=
  y % 4 == 0 && (y % 100 != 0 || y % 400 == 0)

/-- Days in a month, as validated by the `datetime` constructor. -/
def daysInMonth (y m : Nat) : Nat :=
  if m = 2 then (if isLeap y then 29 else 28)
  else if m = 4 ∨ m = 6 ∨ m = 9 ∨ m = 11 then 30
  else 31

/-- Range checks of the `datetime(year, month, day)` constructor
(months and days below their lower bounds cannot be produced by the
regex, but the constructor checks them anyway). -/
def validDMY (y m d : Nat) : Bool :=
  decide (1 ≤ y) && decide (1 ≤ m) && decide (m ≤ 12) &&
  decide (1 ≤ d) && decide (d ≤ daysInMonth y m)

/-- A `datetime` value, reduced to the calendar date that this pipeline
uses of it. -/
structure PyDate where
  year : Nat
  month : Nat
  day : Nat
deriving DecidableEq, Repr

/-- Model of datetime.strptime with format %d%m%Y: the regex engine finds
the first full-pattern match of `%d%m%Y` against a prefix of `s`; then
`_strptime` raises unless the match consumed the whole string
("unconverted data remains"), and `datetime(...)` raises if the matched
numbers are not a calendar date.  All failures are modelled by `none`. -/
def strptimeDMY (s : List Char) : Option PyDate :=
  match regexDMY s with
  | none => none
  | some (d, m, y, rest) =>
    if rest = [] ∧ validDMY y m d = true then some ⟨y, m, d⟩ else none

/-- Report-date derivation of `LLMExtractionPipeline.run`
(pipeline.py lines 136-139): the str.replace call removes every
occurrence of `.pdf` from the file name, then
datetime.strptime with format %d%m%Y parses the remainder. -/
def deriveReportDate (fname : String) : Option PyDate :=
  strptimeDMY (pyReplace fname ".pdf" "").data

/-- The date loop of `run` over the `file_name` column: the first
`strptime` failure raises and aborts the run, modelled by `none`. -/
def deriveAll : List String → Option (List PyDate)
  | [] => some []
  | f :: fs =>
    match deriveReportDate f with
    | none => none
    | some d =>
      match deriveAll fs with
      | none => none
      | some ds => some (d :: ds)

/-- Sort key of a date: df.sort_values on Report Date orders rows
by the date value. -/
def dateKey (d : PyDate) : Nat :=
  d.year * 10000 + d.month * 100 + d.day

/-- Comparison relation used to model the ascending sort. -/
def dateLE (a b : PyDate) : Prop := dateKey a ≤ dateKey b

instance : DecidableRel dateLE := fun _ _ => Nat.decLe _ _

instance : IsTotal PyDate dateLE := ⟨fun _ _ => Nat.le_total _ _⟩

instance : IsTrans PyDate dateLE := ⟨fun _ _ _ h1 h2 => Nat.le_trans h1 h2⟩

/-- The `Report Date` column of the assembled table
(pipeline.py lines 131-142): records of both companies are concatenated
DIPD-then-REXP, a date is derived from each `file_name`, and the table
is sorted ascending by that date.  Dates with equal keys are equal
dates, so the sorted column is the same list for any sorting algorithm;
insertion sort stands in for the pandas sort. -/
def sortedReportDates (dipd_files rexp_files : List String) : Option (List PyDate) :=
  match deriveAll (dipd_files ++ rexp_files) with
  | none => none
  | some ds => some (List.insertionSort dateLE ds)

/-- One pandas column as the validator sees it: its name, whether its
dtype is numeric (`pd.api.types.is_numeric_dtype`), and its values
rendered as strings. -/
structure PandasCol where
  name : String
  numericDtype : Bool
  values : List String
deriving DecidableEq, Repr

/-- The dataframe read by `validate_data_structure` from
`financial_data.csv`. -/
structure PDataFrame where
  cols : List PandasCol
deriving DecidableEq, Repr

/-- Model of `len(df)`: the number of rows, the common length of the columns. -/
def numRows (df : PDataFrame) : Nat :=
  match df.cols with
  | [] => 0
  | c :: _ => c.values.length

/-- Membership of a column name in `df.columns`. -/
def hasCol (df : PDataFrame) (n : String) : Bool :=
  df.cols.any fun c => c.name == n

/-- The `required_columns` set of `validate_data_structure`
(app.py lines 55-59), as a list in source order. -/
def required_columns : List String :=
  ["Simbol", "file_name", "Revenue", "Cost of Goods Sold (COGS)",
   "Gross Profit", "Operating Expenses", "Operating Income",
   "Net Income", "Report Date"]

/-- Model of `required_columns - set(df.columns)`: the required columns that are
absent, reported by name. -/
def missingColumnsOf (df : PDataFrame) : List String :=
  required_columns.filter fun n => !(hasCol df n)

/-- Values of a named column; unreachable default for absent columns,
which the validator only ever reads after the presence check. -/
def colValues (df : PDataFrame) (n : String) : List String :=
  match df.cols.find? (fun c => c.name == n) with
  | some c => c.values
  | none => []

/-- Numeric-dtype flag of a named column. -/
def colNumeric (df : PDataFrame) (n : String) : Bool :=
  match df.cols.find? (fun c => c.name == n) with
  | some c => c.numericDtype
  | none => false

/-- Distinct values in order of first appearance: `Series.unique()`. -/
def uniq (seen : List String) : List String → List String
  | [] => []
  | s :: r => if seen.contains s then uniq seen r else s :: uniq (s :: seen) r

/-- Model of the check `set(df.Simbol.unique()) - valid_companies`: the company symbols
of the table that are not REXP or DIPD. -/
def invalidCompaniesOf (df : PDataFrame) : List String :=
  (uniq [] (colValues df "Simbol")).filter fun s => !(s == "REXP" || s == "DIPD")

/-- The `numeric_columns` list of `validate_data_structure`
(app.py lines 81-82), in source order. -/
def numeric_columns : List String :=
  ["Revenue", "Cost of Goods Sold (COGS)", "Gross Profit",
   "Operating Expenses", "Operating Income", "Net Income"]

/-- The first monetary column whose dtype is not numeric, in the order
of the `for col in numeric_columns` loop. -/
def firstNonNumericOf (df : PDataFrame) : Option String :=
  numeric_columns.find? fun n => !(colNumeric df n)

/-- The failure reasons of `validate_data_structure`, each carrying the
data its message interpolates (app.py lines 66-96). -/
inductive VErr where
  | emptyFile
  | missingColumns (missing : List String)
  | invalidCompanies (bad : List String)
  | nonNumeric (col : String)
  | badDateFormat
  | insufficientRows
deriving DecidableEq, Repr

/-- Model of `validate_data_structure` (app.py lines 48-101) on an already-read
dataframe.  `dateOk` is the oracle for whether `pd.to_datetime` accepts
one value of the `Report Date` column.  The checks run in source order:
emptiness, required columns, company symbols, numeric dtypes, date
parseability, minimum row count; the first violated check produces the
single returned reason. -/
def validate_data_structure (dateOk : String → Bool)
    (df : PDataFrame) : Bool × Option VErr :=
  if numRows df = 0 then (false, some .emptyFile)
  else if missingColumnsOf df ≠ [] then
    (false, some (.missingColumns (missingColumnsOf df)))
  else if invalidCompaniesOf df ≠ [] then
    (false, some (.invalidCompanies (invalidCompaniesOf df)))
  else
    match firstNonNumericOf df with
    | some n => (false, some (.nonNumeric n))
    | none =>
      if !((colValues df "Report Date").all dateOk) then (false, some .badDateFormat)
      else if numRows df < 4 then (false, some .insufficientRows)
      else (true, none)

theorem scanPages_spec (marker simbol fname : String) (pages : List String) (b : Batch) :
    scanPages marker simbol fname pages b =
      ⟨b.index,
       b.simbol ++ List.replicate (pages.filter (fun p => strContains p marker)).length simbol,
       b.file_name ++ List.replicate (pages.filter (fun p => strContains p marker)).length fname,
       b.target_page ++ pages.filter (fun p => strContains p marker)⟩ := by
  induction pages generalizing b with
  | nil => simp [scanPages]
  | cons p ps ih =>
    by_cases h : strContains p marker = true
    · simp [scanPages, h, ih, List.filter_cons, List.replicate_succ]
    · simp [scanPages, h, ih, List.filter_cons]

set_option maxRecDepth 4000 in
theorem extractFiles_spec (marker simbol : String) (files : List Document)
    (idx : Nat) (b : Batch) :
    extractFiles marker simbol files idx b =
      ⟨b.index ++ List.range' idx files.length,
       b.simbol ++ List.replicate (matchedPages marker files).length simbol,
       b.file_name ++ matchedFileNames marker simbol files,
       b.target_page ++ matchedPages marker files⟩ := by
  induction files generalizing idx b with
  | nil => simp [extractFiles, matchedPages, matchedFileNames]
  | cons f fs ih =>
    have h1 : extractFiles marker simbol (f :: fs) idx b =
        extractFiles marker simbol fs (idx + 1)
          { scanPages marker simbol (trimFileName f.path simbol) f.pages b with
            index :=
              (scanPages marker simbol (trimFileName f.path simbol) f.pages b).index
                ++ [idx] } := rfl
    rw [h1, ih, scanPages_spec]
    simp only [matchedPages, matchedFileNames]
    simp only [List.length_append, List.replicate_add]
    simp only [List.range']
    simp [Batch.mk.injEq, List.append_assoc]

theorem extract_spec (simbol marker : String) (files : List Document)
    (h : map_page_simbol simbol = some marker) :
    extract_pl_pages simbol files =
      some ⟨List.range' 0 files.length,
            List.replicate (matchedPages marker files).length simbol,
            matchedFileNames marker simbol files,
            matchedPages marker files⟩ := by
  simp [extract_pl_pages, h, extractFiles_spec]

theorem matchedFileNames_length (marker simbol : String) (files : List Document) :
    (matchedFileNames marker simbol files).length = (matchedPages marker files).length := by
  induction files with
  | nil => simp [matchedPages, matchedFileNames]
  | cons f fs ih => simp [matchedPages, matchedFileNames, ih]

theorem mem_matchedPages (marker : String) (files : List Document) (p : String) :
    p ∈ matchedPages marker files ↔
      ∃ f, f ∈ files ∧ p ∈ f.pages ∧ strContains p marker = true := by
  induction files with
  | nil => simp [matchedPages]
  | cons f fs ih =>
    simp only [matchedPages, List.mem_append, List.mem_filter, ih, List.mem_cons]
    constructor
    · rintro (⟨hp, hm⟩ | ⟨g, hg, hp, hm⟩)
      · exact ⟨f, Or.inl rfl, hp, hm⟩
      · exact ⟨g, Or.inr hg, hp, hm⟩
    · rintro ⟨g, hg | hg, hp, hm⟩
      · exact Or.inl ⟨hg ▸ hp, hm⟩
      · exact Or.inr ⟨g, hg, hp, hm⟩

theorem buildMessage_isSome (b : Batch) (i : Nat)
    (h1 : i < b.index.length) (h2 : i < b.simbol.length)
    (h3 : i < b.file_name.length) (h4 : i < b.target_page.length) :
    ∃ m, buildMessage b i = some m := by
  rw [buildMessage, List.getElem?_eq_getElem h1, List.getElem?_eq_getElem h2,
    List.getElem?_eq_getElem h3, List.getElem?_eq_getElem h4]
  exact ⟨_, rfl⟩

theorem llmRequestsGo_some_length (b : Batch) (is : List Nat) (ms : List String)
    (h : llmRequestsGo b is = some ms) : ms.length = is.length := by
  induction is generalizing ms with
  | nil => simp [llmRequestsGo] at h; simp [← h]
  | cons i is ih =>
    rw [llmRequestsGo] at h
    cases hm : buildMessage b i with
    | none => rw [hm] at h; exact absurd h (by simp)
    | some m =>
      rw [hm] at h
      cases hgo : llmRequestsGo b is with
      | none => rw [hgo] at h; exact absurd h (by simp)
      | some ms0 =>
        rw [hgo] at h
        cases h
        simp [ih ms0 hgo]

theorem llmRequestsGo_all_some (b : Batch) (is : List Nat)
    (h : ∀ i ∈ is, ∃ m, buildMessage b i = some m) :
    ∃ ms, llmRequestsGo b is = some ms := by
  induction is with
  | nil => exact ⟨[], rfl⟩
  | cons i is ih =>
    obtain ⟨m, hm⟩ := h i (List.mem_cons_self i is)
    obtain ⟨ms, hms⟩ := ih fun j hj => h j (List.mem_cons_of_mem i hj)
    exact ⟨m :: ms, by rw [llmRequestsGo, hm, hms]⟩

theorem llmRequests_length (b : Batch) (reqs : List String)
    (h : llmRequests b = some reqs) : reqs.length = b.index.length := by
  have := llmRequestsGo_some_length b (List.range b.index.length) reqs h
  simpa using this

theorem matchedPages_length_of_one (marker : String) (files : List Document)
    (h : ∀ f ∈ files, (f.pages.filter (fun p => strContains p marker)).length = 1) :
    (matchedPages marker files).length = files.length := by
  induction files with
  | nil => simp [matchedPages]
  | cons f fs ih =>
    have hf := h f (List.mem_cons_self f fs)
    have hfs := ih fun g hg => h g (List.mem_cons_of_mem f hg)
    simp [matchedPages, hf, hfs, Nat.add_comm]

theorem pyReplaceGo_congr (f1 : Nat) : ∀ (f2 : Nat) (s pat rep : List Char),
    s.length < f1 → s.length < f2 →
    pyReplaceGo f1 s pat rep = pyReplaceGo f2 s pat rep := by
  induction f1 with
  | zero => intro f2 s pat rep h1 _; exact absurd h1 (Nat.not_lt_zero _)
  | succ g ih =>
    intro f2 s pat rep h1 h2
    cases f2 with
    | zero => exact absurd h2 (Nat.not_lt_zero _)
    | succ g2 =>
      cases s with
      | nil => simp [pyReplaceGo]
      | cons c cs =>
        by_cases hc : pat ≠ [] ∧ leadsWith pat (c :: cs) = true
        · simp only [pyReplaceGo, if_pos hc]
          have hp : 0 < pat.length := List.length_pos.mpr hc.1
          have hd : ((c :: cs).drop pat.length).length < g := by
            simp only [List.length_drop, List.length_cons]
            simp only [List.length_cons] at h1
            omega
          have hd2 : ((c :: cs).drop pat.length).length < g2 := by
            simp only [List.length_drop, List.length_cons]
            simp only [List.length_cons] at h2
            omega
          rw [ih g2 _ pat rep hd hd2]
        · simp only [pyReplaceGo, if_neg hc]
          have hcs : cs.length < g := by
            simp only [List.length_cons] at h1; omega
          have hcs2 : cs.length < g2 := by
            simp only [List.length_cons] at h2; omega
          rw [ih g2 cs pat rep hcs hcs2]

theorem pyReplaceGo_eq_pyReplaceL (f : Nat) (s pat rep : List Char)
    (h : s.length < f) : pyReplaceGo f s pat rep = pyReplaceL s pat rep :=
  pyReplaceGo_congr f (s.length + 1) s pat rep h (Nat.lt_succ_self _)

theorem leadsWith_append_self (pat t : List Char) :
    leadsWith pat (pat ++ t) = true := by
  induction pat with
  | nil => simp [leadsWith]
  | cons a as ih => simp [leadsWith, ih]

theorem pyReplaceL_cancel_head (pat t : List Char) (hp : pat ≠ []) :
    pyReplaceL (pat ++ t) pat [] = pyReplaceL t pat [] := by
  obtain ⟨p, ps, rfl⟩ : ∃ p ps, pat = p :: ps := by
    cases pat with
    | nil => exact absurd rfl hp
    | cons p ps => exact ⟨p, ps, rfl⟩
  have hcond : (p :: ps ≠ [] ∧ leadsWith (p :: ps) (p :: (ps ++ t)) = true) :=
    ⟨List.cons_ne_nil p ps, by
      have := leadsWith_append_self (p :: ps) t
      simpa using this⟩
  show pyReplaceGo (((p :: ps) ++ t).length + 1) ((p :: ps) ++ t) (p :: ps) [] = _
  rw [List.cons_append, pyReplaceGo, if_pos hcond]
  have hdrop : (p :: (ps ++ t)).drop (p :: ps).length = t := by
    simp only [List.length_cons, List.drop_succ_cons]
    exact List.drop_left ps t
  rw [hdrop, List.nil_append]
  exact pyReplaceGo_eq_pyReplaceL _ t (p :: ps) [] (by simp; omega)

theorem pyReplaceL_skip (u t pat rep : List Char) (p : Char) (ps : List Char)
    (hpat : pat = p :: ps) (hu : p ∉ u) :
    pyReplaceL (u ++ t) pat rep = u ++ pyReplaceL t pat rep := by
  subst hpat
  have main : ∀ (f : Nat) (u : List Char), (u ++ t).length < f → p ∉ u →
      pyReplaceGo f (u ++ t) (p :: ps) rep = u ++ pyReplaceL t (p :: ps) rep := by
    intro f
    induction f with
    | zero => intro u h1 _; exact absurd h1 (Nat.not_lt_zero _)
    | succ g ih =>
      intro u h1 hu
      cases u with
      | nil =>
        simp only [List.nil_append] at h1 ⊢
        exact pyReplaceGo_eq_pyReplaceL _ t (p :: ps) rep (by omega)
      | cons c u' =>
        have hpc : p ≠ c := fun h => hu (h ▸ List.mem_cons_self c u')
        have hlw : leadsWith (p :: ps) (c :: (u' ++ t)) = false := by
          simp [leadsWith, hpc]
        have hcond : ¬((p :: ps) ≠ [] ∧ leadsWith (p :: ps) (c :: (u' ++ t)) = true) := by
          intro hc
          rw [hlw] at hc
          exact Bool.false_ne_true hc.2
        rw [List.cons_append, pyReplaceGo, if_neg hcond]
        have hlen : (u' ++ t).length < g := by
          simp only [List.cons_append, List.length_cons] at h1
          omega
        rw [ih u' hlen (fun h => hu (List.mem_cons_of_mem c h))]
        rfl

  exact main ((u ++ t).length + 1) u (Nat.lt_succ_self _) hu

theorem pyReplaceL_of_not_contains (s pat rep : List Char)
    (h : strContainsL s pat = false) : pyReplaceL s pat rep = s := by
  have main : ∀ (f : Nat) (s : List Char), s.length < f →
      strContainsL s pat = false → pyReplaceGo f s pat rep = s := by
    intro f
    induction f with
    | zero => intro s h1 _; exact absurd h1 (Nat.not_lt_zero _)
    | succ g ih =>
      intro s h1 hs
      cases s with
      | nil => simp [pyReplaceGo]
      | cons c cs =>
        rw [strContainsL] at hs
        have hparts := Bool.or_eq_false_iff.mp hs
        have hcond : ¬(pat ≠ [] ∧ leadsWith pat (c :: cs) = true) := by
          intro hc
          rw [hparts.1] at hc
          exact Bool.false_ne_true hc.2
        rw [pyReplaceGo, if_neg hcond]
        have hlen : cs.length < g := by
          simp only [List.length_cons] at h1; omega
        rw [ih cs hlen hparts.2]

  exact main (s.length + 1) s (Nat.lt_succ_self _) h

theorem firstSome_eq_some {α β : Type} (l : List α) (f : α → Option β) (b : β)
    (h : firstSome l f = some b) : ∃ a, a ∈ l ∧ f a = some b := by
  induction l with
  | nil => simp [firstSome] at h
  | cons x xs ih =>
    rw [firstSome] at h
    cases hx : f x with
    | some y =>
      rw [hx] at h
      cases h
      exact ⟨x, List.mem_cons_self x xs, hx⟩
    | none =>
      rw [hx] at h
      obtain ⟨a, ha, hfa⟩ := ih h
      exact ⟨a, List.mem_cons_of_mem x ha, hfa⟩

theorem mem_ite_singleton {α : Type} {P : Prop} [Decidable P] {x y : α}
    (h : x ∈ (if P then [y] else [])) : P ∧ x = y := by
  split at h
  · simp at h
    exact ⟨‹P›, h⟩
  · simp at h

theorem dayCands_digits (s : List Char) (d : Nat) (r : List Char)
    (h : (d, r) ∈ dayCands s) :
    ∃ pre, s = pre ++ r ∧ ∀ c ∈ pre, c.isDigit = true := by
  match s with
  | [] => simp [dayCands] at h
  | [a] =>
    rw [dayCands] at h
    obtain ⟨⟨ha, _⟩, heq⟩ := mem_ite_singleton h
    obtain ⟨_, hr⟩ := Prod.mk.injEq .. ▸ heq
    refine ⟨[a], by simp [← hr], ?_⟩
    intro c hc
    rw [List.mem_singleton] at hc
    exact hc ▸ ha
  | a :: b :: rest =>
    rw [dayCands] at h
    rcases List.mem_append.mp h with h1234 | h4
    · rcases List.mem_append.mp h1234 with h123 | h3
      · rcases List.mem_append.mp h123 with h1 | h2
        · obtain ⟨⟨ha, hb⟩, heq⟩ := mem_ite_singleton h1
          obtain ⟨_, hr⟩ := Prod.mk.injEq .. ▸ heq
          refine ⟨[a, b], by simp [← hr], ?_⟩
          intro c hc
          rcases List.mem_cons.mp hc with hc | hc
          · subst hc; subst ha; decide
          · rw [List.mem_singleton] at hc
            subst hc
            rcases hb with hb | hb <;> (subst hb; decide)
        · obtain ⟨⟨ha, hb⟩, heq⟩ := mem_ite_singleton h2
          obtain ⟨_, hr⟩ := Prod.mk.injEq .. ▸ heq
          refine ⟨[a, b], by simp [← hr], ?_⟩
          intro c hc
          rcases List.mem_cons.mp hc with hc | hc
          · subst hc
            rcases ha with ha | ha <;> (subst ha; decide)
          · rw [List.mem_singleton] at hc
            exact hc ▸ hb
      · obtain ⟨⟨ha, hb, _⟩, heq⟩ := mem_ite_singleton h3
        obtain ⟨_, hr⟩ := Prod.mk.injEq .. ▸ heq
        refine ⟨[a, b], by simp [← hr], ?_⟩
        intro c hc
        rcases List.mem_cons.mp hc with hc | hc
        · subst hc; subst ha; decide
        · rw [List.mem_singleton] at hc
          exact hc ▸ hb
    · obtain ⟨⟨ha, _⟩, heq⟩ := mem_ite_singleton h4
      obtain ⟨_, hr⟩ := Prod.mk.injEq .. ▸ heq
      refine ⟨[a], by simp [← hr], ?_⟩
      intro c hc
      rw [List.mem_singleton] at hc
      exact hc ▸ ha

theorem monthCands_digits (s : List Char) (m : Nat) (r : List Char)
    (h : (m, r) ∈ monthCands s) :
    ∃ pre, s = pre ++ r ∧ ∀ c ∈ pre, c.isDigit = true := by
  match s with
  | [] => simp [monthCands] at h
  | [a] =>
    rw [monthCands] at h
    obtain ⟨⟨ha, _⟩, heq⟩ := mem_ite_singleton h
    obtain ⟨_, hr⟩ := Prod.mk.injEq .. ▸ heq
    refine ⟨[a], by simp [← hr], ?_⟩
    intro c hc
    rw [List.mem_singleton] at hc
    exact hc ▸ ha
  | a :: b :: rest =>
    rw [monthCands] at h
    rcases List.mem_append.mp h with h12 | h3
    · rcases List.mem_append.mp h12 with h1 | h2
      · obtain ⟨⟨ha, hb⟩, heq⟩ := mem_ite_singleton h1
        obtain ⟨_, hr⟩ := Prod.mk.injEq .. ▸ heq
        refine ⟨[a, b], by simp [← hr], ?_⟩
        intro c hc
        rcases List.mem_cons.mp hc with hc | hc
        · subst hc; subst ha; decide
        · rw [List.mem_singleton] at hc
          subst hc
          rcases hb with hb | hb | hb <;> (subst hb; decide)
      · obtain ⟨⟨ha, hb, _⟩, heq⟩ := mem_ite_singleton h2
        obtain ⟨_, hr⟩ := Prod.mk.injEq .. ▸ heq
        refine ⟨[a, b], by simp [← hr], ?_⟩
        intro c hc
        rcases List.mem_cons.mp hc with hc | hc
        · subst hc; subst ha; decide
        · rw [List.mem_singleton] at hc
          exact hc ▸ hb
    · obtain ⟨⟨ha, _⟩, heq⟩ := mem_ite_singleton h3
      obtain ⟨_, hr⟩ := Prod.mk.injEq .. ▸ heq
      refine ⟨[a], by simp [← hr], ?_⟩
      intro c hc
      rw [List.mem_singleton] at hc
      exact hc ▸ ha

theorem yearParse_digits (s : List Char) (y : Nat) (r : List Char)
    (h : yearParse s = some (y, r)) :
    ∃ pre, s = pre ++ r ∧ ∀ c ∈ pre, c.isDigit = true := by
  match s with
  | [] => simp [yearParse] at h
  | [_] => simp [yearParse] at h
  | [_, _] => simp [yearParse] at h
  | [_, _, _] => simp [yearParse] at h
  | a :: b :: c :: d :: rest =>
    rw [yearParse] at h
    split_ifs at h with hd
    · obtain ⟨ha, hb, hc, hdd⟩ := hd
      cases h
      refine ⟨[a, b, c, d], by simp, ?_⟩
      intro x hx
      rcases List.mem_cons.mp hx with hx | hx
      · exact hx ▸ ha
      rcases List.mem_cons.mp hx with hx | hx
      · exact hx ▸ hb
      rcases List.mem_cons.mp hx with hx | hx
      · exact hx ▸ hc
      rw [List.mem_singleton] at hx
      exact hx ▸ hdd

theorem strptimeDMY_digits (s : List Char) (d : PyDate)
    (h : strptimeDMY s = some d) : ∀ c ∈ s, c.isDigit = true := by
  cases hr : regexDMY s with
  | none => rw [strptimeDMY, hr] at h; exact absurd h (by simp)
  | some t =>
    obtain ⟨dd, mm, yy, rest⟩ := t
    rw [strptimeDMY, hr] at h
    simp only [] at h
    split_ifs at h with hcond
    obtain ⟨hrest, _⟩ := hcond
    subst hrest
    obtain ⟨dr, hdr, h1⟩ := firstSome_eq_some _ _ _ hr
    obtain ⟨d1, r1⟩ := dr
    simp only [] at h1
    obtain ⟨mr, hmr, h2⟩ := firstSome_eq_some _ _ _ h1
    obtain ⟨m1, r2⟩ := mr
    simp only [] at h2
    cases hy : yearParse r2 with
    | none => rw [hy] at h2; exact absurd h2 (by simp)
    | some t2 =>
      obtain ⟨y2, r3⟩ := t2
      rw [hy] at h2
      simp only [Option.map_some', Option.some.injEq, Prod.mk.injEq] at h2
      obtain ⟨_, _, _, hr3⟩ := h2
      obtain ⟨preD, hsD, hdD⟩ := dayCands_digits s d1 r1 hdr
      obtain ⟨preM, hsM, hdM⟩ := monthCands_digits r1 m1 r2 hmr
      obtain ⟨preY, hsY, hdY⟩ := yearParse_digits r2 y2 r3 hy
      intro c hc
      rw [hsD] at hc
      rcases List.mem_append.mp hc with hc | hc
      · exact hdD c hc
      rw [hsM] at hc
      rcases List.mem_append.mp hc with hc | hc
      · exact hdM c hc
      rw [hsY] at hc
      rcases List.mem_append.mp hc with hc | hc
      · exact hdY c hc
      rw [hr3] at hc
      simp at hc

theorem llmRequests_of_one_match (simbol marker : String) (files : List Document)
    (h : map_page_simbol simbol = some marker)
    (hone : ∀ f ∈ files, (f.pages.filter (fun p => strContains p marker)).length = 1) :
    ∃ b reqs, extract_pl_pages simbol files = some b ∧ llmRequests b = some reqs ∧
      reqs.length = b.index.length ∧ reqs.length = b.target_page.length ∧
      reqs.length = files.length := by
  have hmp := matchedPages_length_of_one marker files hone
  have hb : ∀ i ∈ List.range
      (Batch.index ⟨List.range' 0 files.length,
        List.replicate (matchedPages marker files).length simbol,
        matchedFileNames marker simbol files,
        matchedPages marker files⟩).length,
      ∃ m, buildMessage
        ⟨List.range' 0 files.length,
         List.replicate (matchedPages marker files).length simbol,
         matchedFileNames marker simbol files,
         matchedPages marker files⟩ i = some m := by
    intro i hi
    rw [List.mem_range] at hi
    simp only [List.length_range'] at hi
    refine buildMessage_isSome _ i ?_ ?_ ?_ ?_
    · simpa using hi
    · simpa [hmp] using hi
    · simpa [matchedFileNames_length, hmp] using hi
    · simpa [hmp] using hi
  obtain ⟨reqs, hreqs⟩ := llmRequestsGo_all_some _ _ hb
  have hlen := llmRequestsGo_some_length _ _ _ hreqs
  refine ⟨_, reqs, extract_spec simbol marker files h, hreqs, ?_, ?_, ?_⟩ <;>
    simp only [List.length_range] at hlen <;>
    simp [hlen, List.length_range', hmp]

/-- C1 counterexample input: a single REXP document whose text contains
the marker on two distinct pages. -/
def c1docs : List Document :=
  [⟨"C:\\data\\raw\\REXP\\30062022.pdf",
    ["xx Consolidated Income Statements yy",
     "zz Consolidated Income Statements ww"]⟩]

/-- The batch that the Page Locator produces for `c1docs`. -/
def c1batch : Batch := (extract_pl_pages "REXP" c1docs).getD ⟨[], [], [], []⟩

/-- C1, counterexample: for a batch with one document contributing two
matched pages, `llm_data_extraction` issues one request while the batch
holds two matched pages, so the number of requests is not the number of
matched pages. -/
theorem c1_requests_counterexample :
    c1batch.target_page.length = 2 ∧
    (llmRequests c1batch).map List.length = some 1 ∧ (1 : Nat) ≠ 2 :=
  ⟨rfl, rfl, by decide⟩

/-- C1, amended: whenever `llm_data_extraction` completes, it has
issued exactly one LLM request per entry of the batch index list, that
is one per document of the batch, rather than one per matched page;
in the particular case that every document contributed exactly one
matched page, this per-document count coincides with the number of
matched pages. -/
theorem c1_requests_per_document :
    (∀ (b : Batch) (reqs : List String), llmRequests b = some reqs →
      reqs.length = b.index.length) ∧
    (∀ (simbol marker : String) (files : List Document),
      map_page_simbol simbol = some marker →
      (∀ f ∈ files, (f.pages.filter (fun p => strContains p marker)).length = 1) →
      ∃ b reqs, extract_pl_pages simbol files = some b ∧ llmRequests b = some reqs ∧
        reqs.length = b.index.length ∧ reqs.length = b.target_page.length ∧
        reqs.length = files.length) :=
  ⟨fun b reqs h => llmRequests_length b reqs h,
   fun simbol marker files h hone =>
     llmRequests_of_one_match simbol marker files h hone⟩

/-- C1, witness: the one-match-per-document conjunct of the amended
theorem applied to one REXP document with exactly one marker page. -/
theorem c1_requests_per_document_witness :
    ∃ b reqs,
      extract_pl_pages "REXP"
        [⟨"C:\\data\\raw\\REXP\\30062022.pdf",
          ["aa Consolidated Income Statements bb"]⟩] = some b ∧
      llmRequests b = some reqs ∧ reqs.length = b.index.length ∧
      reqs.length = b.target_page.length ∧
      reqs.length = ([⟨"C:\\data\\raw\\REXP\\30062022.pdf",
          ["aa Consolidated Income Statements bb"]⟩] : List Document).length :=
  c1_requests_per_document.2 "REXP" "Consolidated Income Statements" _
    (by decide) (by decide)

/-- C4: for every supported symbol, the Page Locator batch has exactly
one index entry per document, while the simbol, file_name and
target_page lists gain exactly one entry per matched page; the index
list is therefore not aligned 1:1 with the matched-page lists in
general. -/
theorem c4_index_per_document (simbol marker : String) (files : List Document)
    (h : map_page_simbol simbol = some marker) :
    ∃ b, extract_pl_pages simbol files = some b ∧
      b.index.length = files.length ∧
      b.simbol.length = (matchedPages marker files).length ∧
      b.file_name.length = (matchedPages marker files).length ∧
      b.target_page.length = (matchedPages marker files).length := by
  refine ⟨_, extract_spec simbol marker files h, ?_, ?_, ?_, ?_⟩ <;>
    simp [List.length_range', matchedFileNames_length]

/-- C4, witness: one REXP document with two matched pages and one with
none; the index list has two entries, the matched-page lists two
entries overall, exhibiting the per-document and per-page counts. -/
theorem c4_index_per_document_witness :
    ∃ b, extract_pl_pages "REXP"
      [⟨"C:\\data\\raw\\REXP\\30062022.pdf",
        ["xx Consolidated Income Statements yy",
         "zz Consolidated Income Statements ww"]⟩,
       ⟨"C:\\data\\raw\\REXP\\31122022.pdf", ["no marker on this page"]⟩] = some b ∧
      b.index.length =
        ([⟨"C:\\data\\raw\\REXP\\30062022.pdf",
        ["xx Consolidated Income Statements yy",
         "zz Consolidated Income Statements ww"]⟩,
       ⟨"C:\\data\\raw\\REXP\\31122022.pdf", ["no marker on this page"]⟩] : List Document).length ∧
      b.simbol.length = (matchedPages "Consolidated Income Statements"
        [⟨"C:\\data\\raw\\REXP\\30062022.pdf",
        ["xx Consolidated Income Statements yy",
         "zz Consolidated Income Statements ww"]⟩,
       ⟨"C:\\data\\raw\\REXP\\31122022.pdf", ["no marker on this page"]⟩]).length ∧
      b.file_name.length = (matchedPages "Consolidated Income Statements"
        [⟨"C:\\data\\raw\\REXP\\30062022.pdf",
        ["xx Consolidated Income Statements yy",
         "zz Consolidated Income Statements ww"]⟩,
       ⟨"C:\\data\\raw\\REXP\\31122022.pdf", ["no marker on this page"]⟩]).length ∧
      b.target_page.length = (matchedPages "Consolidated Income Statements"
        [⟨"C:\\data\\raw\\REXP\\30062022.pdf",
        ["xx Consolidated Income Statements yy",
         "zz Consolidated Income Statements ww"]⟩,
       ⟨"C:\\data\\raw\\REXP\\31122022.pdf", ["no marker on this page"]⟩]).length :=
  c4_index_per_document "REXP" "Consolidated Income Statements" _ (by decide)

/-- C5: for every supported symbol, the batch target pages are exactly
the pages whose text contains that symbol marker, in
document-then-page order, with one entry per matching page and no
de-duplication; a page lacking the marker is never included. -/
theorem c5_marker_pages (simbol marker : String) (files : List Document)
    (h : map_page_simbol simbol = some marker) :
    ∃ b, extract_pl_pages simbol files = some b ∧
      b.target_page = matchedPages marker files ∧
      ∀ p, p ∈ b.target_page ↔
        ∃ f, f ∈ files ∧ p ∈ f.pages ∧ strContains p marker = true := by
  refine ⟨_, extract_spec simbol marker files h, rfl, ?_⟩
  intro p
  simpa using mem_matchedPages marker files p

/-- C5, witness: a DIPD document with a marker page and a page without
the marker. -/
theorem c5_marker_pages_witness :
    ∃ b, extract_pl_pages "DIPD"
      [⟨"C:\\data\\raw\\DIPD\\31032023.pdf",
        ["cover page", "qq STATEMENT OF PROFIT OR LOSS rr"]⟩] = some b ∧
      b.target_page = matchedPages "STATEMENT OF PROFIT OR LOSS"
        [⟨"C:\\data\\raw\\DIPD\\31032023.pdf",
          ["cover page", "qq STATEMENT OF PROFIT OR LOSS rr"]⟩] ∧
      ∀ p, p ∈ b.target_page ↔
        ∃ f, f ∈ ([⟨"C:\\data\\raw\\DIPD\\31032023.pdf",
          ["cover page", "qq STATEMENT OF PROFIT OR LOSS rr"]⟩] : List Document) ∧
          p ∈ f.pages ∧ strContains p "STATEMENT OF PROFIT OR LOSS" = true :=
  c5_marker_pages "DIPD" "STATEMENT OF PROFIT OR LOSS" _ (by decide)

/-- C9: `llm_data_extraction` iterates once per entry of the index
list, indexing the three per-page lists at that position; when every
document contributed exactly one matched page all accesses are in
bounds, and for a batch where the first document contributed no
matched page and the second one page, the loop walks off the end of
the per-page lists and the call fails with an index error (`none`),
not a domain-specific error. -/
theorem c9_index_iteration :
    (∀ (simbol marker : String) (files : List Document),
      map_page_simbol simbol = some marker →
      (∀ f ∈ files, (f.pages.filter (fun p => strContains p marker)).length = 1) →
      ∃ b, extract_pl_pages simbol files = some b ∧ (llmRequests b).isSome = true) ∧
    llmRequests ((extract_pl_pages "REXP"
      [⟨"C:\\data\\raw\\REXP\\31122022.pdf", ["no marker here"]⟩,
       ⟨"C:\\data\\raw\\REXP\\30062022.pdf",
        ["aa Consolidated Income Statements bb"]⟩]).getD ⟨[], [], [], []⟩) = none := by
  constructor
  · intro simbol marker files h hone
    obtain ⟨b, reqs, hb, hreqs, _⟩ := llmRequests_of_one_match simbol marker files h hone
    exact ⟨b, hb, by simp [hreqs]⟩
  · rfl

/-- C9, witness: the in-bounds half of the theorem applied to a single
REXP document with exactly one marker page. -/
theorem c9_index_iteration_witness :
    ∃ b, extract_pl_pages "REXP"
      [⟨"C:\\data\\raw\\REXP\\30062022.pdf",
        ["cc Consolidated Income Statements dd"]⟩] = some b ∧
      (llmRequests b).isSome = true :=
  c9_index_iteration.1 "REXP" "Consolidated Income Statements" _ (by decide) (by decide)

/-- C2, counterexample: the file name 30062022 lacks the .pdf suffix,
yet date derivation succeeds and yields 2022-06-30, because
`str.replace` leaves a name without the substring unchanged and
`strptime` then parses the eight digits. -/
theorem c2_date_counterexample :
    deriveReportDate "30062022" = some ⟨2022, 6, 30⟩ ∧
    List.isSuffixOf ".pdf".data "30062022".data = false :=
  ⟨rfl, by decide⟩

/-- C2, amended: derivation maps 30062022.pdf to 2022-06-30 and
31122024.pdf to 2024-12-31; in general it removes every occurrence of
.pdf anywhere in the file name (not only a suffix) and succeeds exactly
when the remainder matches the strptime pattern day-month-4-digit-year
as a calendar-valid date; in particular any successful derivation means
the remainder was all digits, so a non-digit in the date portion fails. -/
theorem c2_date_derivation :
    deriveReportDate "30062022.pdf" = some ⟨2022, 6, 30⟩ ∧
    deriveReportDate "31122024.pdf" = some ⟨2024, 12, 31⟩ ∧
    (∀ f : String, deriveReportDate f = strptimeDMY (pyReplace f ".pdf" "").data) ∧
    (∀ (f : String) (d : PyDate), deriveReportDate f = some d →
      ∀ c ∈ (pyReplace f ".pdf" "").data, c.isDigit = true) := by
  refine ⟨rfl, rfl, fun f => rfl, ?_⟩
  intro f d h c hc
  exact strptimeDMY_digits _ d h c hc

/-- C2, witness: the digits consequence of the amended theorem applied
to the file name 30062022.pdf. -/
theorem c2_date_derivation_witness :
    Char.isDigit '3' = true ∧ deriveReportDate "30062022.pdf" = some ⟨2022, 6, 30⟩ :=
  ⟨c2_date_derivation.2.2.2 "30062022.pdf" ⟨2022, 6, 30⟩ (by decide) '3' (by decide),
   c2_date_derivation.1⟩

/-- C6: whenever some response, after fence-stripping, is not a valid
literal, `parse_llm_extraction_response` aborts the whole run with an
error that carries a stripped response text which itself fails to
parse; it never returns a record list in that situation. -/
theorem c6_parse_failure_raises (rs : List String) (r : String)
    (h1 : r ∈ rs) (h2 : literal_eval (stripFences r) = none) :
    ∃ t, parse_llm_extraction_response rs = .error t ∧ literal_eval t = none ∧
      ∃ q, q ∈ rs ∧ t = stripFences q := by
  induction rs with
  | nil => simp at h1
  | cons x xs ih =>
    cases hx : literal_eval (stripFences x) with
    | none =>
      refine ⟨stripFences x, ?_, hx, x, List.mem_cons_self x xs, rfl⟩
      simp [parse_llm_extraction_response, hx]
    | some v =>
      have hr : r ∈ xs := by
        rcases List.mem_cons.mp h1 with h | h
        · subst h; rw [hx] at h2; cases h2
        · exact h
      obtain ⟨t, ht, htnone, q, hq, hqeq⟩ := ih hr
      refine ⟨t, ?_, htnone, q, List.mem_cons_of_mem x hq, hqeq⟩
      simp [parse_llm_extraction_response, hx, ht]

/-- C6, witness: a prose response makes the whole parse call fail with
the offending text. -/
theorem c6_parse_failure_raises_witness :
    ∃ t, parse_llm_extraction_response ["I could not find the statement."] =
      .error t ∧ literal_eval t = none ∧
      ∃ q, q ∈ ["I could not find the statement."] ∧ t = stripFences q :=
  c6_parse_failure_raises ["I could not find the statement."]
    "I could not find the statement." (by simp) rfl

/-- C10: fence-stripping removes every occurrence of the substrings
json and triple-backtick anywhere in the response, so a syntactically
valid response whose file_name value contains the substring json
parses to a record whose file_name value differs from the one in the
raw response. -/
theorem c10_strip_removes_json :
    (∀ s : String, stripFences s = pyReplace (pyReplace s "```" "") "json" "") ∧
    parse_llm_extraction_response
      ["\x7b\"Simbol\": \"REXP\", \"file_name\": \"30062022json.pdf\"\x7d"] =
      .ok [[("Simbol", PyScalar.pstr "REXP"),
            ("file_name", PyScalar.pstr "30062022.pdf")]] ∧
    strContains "\x7b\"Simbol\": \"REXP\", \"file_name\": \"30062022json.pdf\"\x7d"
      "30062022json.pdf" = true ∧
    ("30062022.pdf" : String) ≠ "30062022json.pdf" := by
  exact ⟨fun s => rfl, rfl, rfl, by decide⟩

/-- C7, counterexample: a well-formed fenced JSON text whose content
holds the substring json inside a value; stripping the fences also
deletes that substring, so the fenced text parses to a different
mapping than the unfenced text. -/
theorem c7_roundtrip_counterexample :
    literal_eval (stripFences "```json\x7b\"file_name\": \"30062022json.pdf\"\x7d```") =
      some [("file_name", PyScalar.pstr "30062022.pdf")] ∧
    literal_eval "\x7b\"file_name\": \"30062022json.pdf\"\x7d" =
      some [("file_name", PyScalar.pstr "30062022json.pdf")] ∧
    literal_eval (stripFences "```json\x7b\"file_name\": \"30062022json.pdf\"\x7d```") ≠
      literal_eval "\x7b\"file_name\": \"30062022json.pdf\"\x7d" :=
  ⟨rfl, rfl, by decide⟩

/-- The backtick character, named so the fence hypotheses can mention
it. -/
def btChar : Char := '\x60'

/-- C7, amended: for fenced text made of the opening fence with
language tag, a content text and the closing fence, where the content
contains no backtick and no occurrence of the substring json,
fence-stripping returns exactly the content, so the stripped text
parses to the same mapping as the unfenced content. -/
theorem c7_roundtrip (b : String) (m : PyDict)
    (hb : ∀ c ∈ b.data, c ≠ btChar)
    (hj : strContains b "json" = false)
    (hm : literal_eval b = some m) :
    stripFences ("```json" ++ b ++ "```") = b ∧
    literal_eval (stripFences ("```json" ++ b ++ "```")) = some m := by
  have hnotmem : btChar ∉ ("json".data ++ b.data) := by
    intro hmem
    rcases List.mem_append.mp hmem with h | h
    · revert h; decide
    · exact hb _ h rfl
  have e1 : ("```json" ++ b ++ "```").data =
      "```".data ++ (("json".data ++ b.data) ++ "```".data) := rfl
  have hstal : (stripFences ("```json" ++ b ++ "```")).data = b.data := by
    show pyReplaceL (pyReplaceL ("```json" ++ b ++ "```").data "```".data [])
      "json".data [] = b.data
    rw [e1,
      pyReplaceL_cancel_head "```".data (("json".data ++ b.data) ++ "```".data)
        (by decide),
      pyReplaceL_skip ("json".data ++ b.data) "```".data "```".data [] btChar
        [btChar, btChar] rfl hnotmem]
    have e3 : pyReplaceL "```".data "```".data [] = ([] : List Char) := rfl
    rw [e3, List.append_nil,
      pyReplaceL_cancel_head "json".data b.data (by decide)]
    exact pyReplaceL_of_not_contains b.data "json".data [] hj
  have hstrip : stripFences ("```json" ++ b ++ "```") = b := String.ext hstal
  exact ⟨hstrip, by rw [hstrip]; exact hm⟩

/-- C7, witness: the amended round trip applied to a concrete fenced
record. -/
theorem c7_roundtrip_witness :
    stripFences ("```json" ++ "\x7b\"Simbol\": \"DIPD\", \"Revenue\": 1000\x7d" ++ "```") =
      "\x7b\"Simbol\": \"DIPD\", \"Revenue\": 1000\x7d" ∧
    literal_eval (stripFences
      ("```json" ++ "\x7b\"Simbol\": \"DIPD\", \"Revenue\": 1000\x7d" ++ "```")) =
      some [("Simbol", PyScalar.pstr "DIPD"), ("Revenue", PyScalar.pint 1000)] :=
  c7_roundtrip "\x7b\"Simbol\": \"DIPD\", \"Revenue\": 1000\x7d"
    [("Simbol", PyScalar.pstr "DIPD"), ("Revenue", PyScalar.pint 1000)]
    (by decide) (by decide) rfl

theorem pairwise_lt_of_le_ne (l : List PyDate)
    (hle : List.Pairwise dateLE l)
    (hne : List.Pairwise (fun a b => dateKey a ≠ dateKey b) l) :
    List.Pairwise (fun a b => dateKey a < dateKey b) l := by
  induction l with
  | nil => exact List.Pairwise.nil
  | cons x xs ih =>
    rcases List.pairwise_cons.mp hle with ⟨hx, hxs⟩
    rcases List.pairwise_cons.mp hne with ⟨hx2, hxs2⟩
    exact List.pairwise_cons.mpr
      ⟨fun y hy => Nat.lt_of_le_of_ne (hx y hy) (hx2 y hy), ih hxs hxs2⟩

/-- C8: whenever every file name of the concatenated per-company
record lists yields a derivable date, the assembled Report Date column
is sorted ascending, and strictly ascending when all its dates are
distinct; the statement quantifies over both input lists, so it holds
for either concatenation order of the per-company inputs. -/
theorem c8_sorted_dates (dipd_files rexp_files : List String) (ds : List PyDate)
    (h : sortedReportDates dipd_files rexp_files = some ds) :
    List.Pairwise dateLE ds ∧
    (List.Pairwise (fun a b => dateKey a ≠ dateKey b) ds →
      List.Pairwise (fun a b => dateKey a < dateKey b) ds) := by
  rw [sortedReportDates] at h
  cases hd : deriveAll (dipd_files ++ rexp_files) with
  | none => rw [hd] at h; cases h
  | some ds0 =>
    rw [hd] at h
    simp only [Option.some.injEq] at h
    subst h
    have hsorted : List.Pairwise dateLE (List.insertionSort dateLE ds0) :=
      List.sorted_insertionSort dateLE ds0
    exact ⟨hsorted, fun hne => pairwise_lt_of_le_ne _ hsorted hne⟩

/-- C8, witness: the example of the specification, DIPD records dated
2023-03-31 and 2022-12-31 with a REXP record dated 2022-06-30. -/
theorem c8_sorted_dates_witness :
    List.Pairwise dateLE
      [⟨2022, 6, 30⟩, ⟨2022, 12, 31⟩, ⟨2023, 3, 31⟩] :=
  (c8_sorted_dates ["31032023.pdf", "31122022.pdf"] ["30062022.pdf"]
    [⟨2022, 6, 30⟩, ⟨2022, 12, 31⟩, ⟨2023, 3, 31⟩] (by decide)).1

/-- C3, counterexample: a table with zero rows that is also missing
required columns is reported as empty, not with the missing column
names, so the emptiness check runs before the column-presence check,
contrary to the claimed order. -/
theorem c3_validator_counterexample :
    validate_data_structure (fun _ => true) ⟨[⟨"Simbol", false, []⟩]⟩ =
      (false, some VErr.emptyFile) ∧
    missingColumnsOf ⟨[⟨"Simbol", false, []⟩]⟩ ≠ [] :=
  ⟨rfl, by decide⟩

/-- C3, amended: the validator checks, in order, non-emptiness, then
required columns (missing ones reported by name), then that the
company symbols are a subset of REXP and DIPD (the offending set
named), then that the six monetary columns are numeric (first
offender named), then date parseability, then the 4-row minimum, and
returns the pass flag with the reason for the first failed check
only. -/
theorem c3_validator_order (dateOk : String → Bool) (df : PDataFrame) :
    (numRows df = 0 →
      validate_data_structure dateOk df = (false, some VErr.emptyFile)) ∧
    (numRows df ≠ 0 → missingColumnsOf df ≠ [] →
      validate_data_structure dateOk df =
        (false, some (VErr.missingColumns (missingColumnsOf df)))) ∧
    (numRows df ≠ 0 → missingColumnsOf df = [] → invalidCompaniesOf df ≠ [] →
      validate_data_structure dateOk df =
        (false, some (VErr.invalidCompanies (invalidCompaniesOf df)))) ∧
    (∀ n, numRows df ≠ 0 → missingColumnsOf df = [] → invalidCompaniesOf df = [] →
      firstNonNumericOf df = some n →
      validate_data_structure dateOk df = (false, some (VErr.nonNumeric n))) ∧
    (numRows df ≠ 0 → missingColumnsOf df = [] → invalidCompaniesOf df = [] →
      firstNonNumericOf df = none → (colValues df "Report Date").all dateOk = false →
      validate_data_structure dateOk df = (false, some VErr.badDateFormat)) ∧
    (numRows df ≠ 0 → missingColumnsOf df = [] → invalidCompaniesOf df = [] →
      firstNonNumericOf df = none → (colValues df "Report Date").all dateOk = true →
      numRows df < 4 →
      validate_data_structure dateOk df = (false, some VErr.insufficientRows)) ∧
    (numRows df ≠ 0 → missingColumnsOf df = [] → invalidCompaniesOf df = [] →
      firstNonNumericOf df = none → (colValues df "Report Date").all dateOk = true →
      4 ≤ numRows df →
      validate_data_structure dateOk df = (true, none)) := by
  refine ⟨?_, ?_, ?_, ?_, ?_, ?_, ?_⟩
  · intro h0
    simp [validate_data_structure, h0]
  · intro h0 h1
    simp [validate_data_structure, h0, h1]
  · intro h0 h1 h2
    simp [validate_data_structure, h0, h1, h2]
  · intro n h0 h1 h2 h3
    simp [validate_data_structure, h0, h1, h2, h3]
  · intro h0 h1 h2 h3 h4
    simp [validate_data_structure, h0, h1, h2, h3, h4]
  · intro h0 h1 h2 h3 h4 h5
    simp [validate_data_structure, h0, h1, h2, h3, h4, h5]
  · intro h0 h1 h2 h3 h4 h5
    simp [validate_data_structure, h0, h1, h2, h3, h4, Nat.not_lt.mpr h5]

/-- A four-row table with both companies, numeric monetary columns and
parseable dates: the acceptance case of the validator. -/
def c3goodDf : PDataFrame :=
  ⟨[⟨"Simbol", false, ["REXP", "DIPD", "REXP", "DIPD"]⟩,
    ⟨"file_name", false, ["30062022.pdf", "31122022.pdf", "31032023.pdf", "30062023.pdf"]⟩,
    ⟨"Revenue", true, ["10", "20", "30", "40"]⟩,
    ⟨"Cost of Goods Sold (COGS)", true, ["1", "2", "3", "4"]⟩,
    ⟨"Gross Profit", true, ["9", "18", "27", "36"]⟩,
    ⟨"Operating Expenses", true, ["5", "6", "7", "8"]⟩,
    ⟨"Operating Income", true, ["4", "12", "20", "28"]⟩,
    ⟨"Net Income", true, ["3", "10", "17", "24"]⟩,
    ⟨"Report Date", false,
      ["2022-06-30", "2022-12-31", "2023-03-31", "2023-06-30"]⟩]⟩

/-- C3, witness: the acceptance conjunct of the amended theorem applied
to the four-row table. -/
theorem c3_validator_order_witness :
    validate_data_structure (fun _ => true) c3goodDf = (true, none) :=
  (c3_validator_order (fun _ => true) c3goodDf).2.2.2.2.2.2
    (by decide) (by decide) (by decide) (by decide) (by decide) (by decide)
